import Mathlib

/-!
Shallow embedding of `doorstop/core/reference_finder.py`.

The module exposes a `ReferenceFinder` with two static methods, `find_ref`
and `find_file_reference`.  Both traverse `tree.vcs.paths`, an ordered list
of `(path, filename, relpath)` triples, skip the owning item's file, and
match a reference either by filename / absolute-path equality or by a
whole-token regular-expression search over the file's lines obtained from
`linecache.getlines`.

External collaborators are modelled as parameters:
* `tree.vcs.paths` becomes a `List Entry`;
* `settings.SKIP_EXTS` (configuration living outside this module) becomes a
  `skipExts : List String` parameter;
* `linecache.getlines` becomes a function `fs : String → LinesResult`, where
  `LinesResult.raised` stands for a `UnicodeDecodeError` / `SyntaxError`
  escaping `getlines` and `LinesResult.ok lines` for a returned line list
  (possibly empty — `getlines` returns `[]` for unreadable files).

Raising `DoorstopError(msg)` is modelled as `Except.error msg`.
-/

deriving instance DecidableEq for Except

namespace Doorstop

/-- One element of `tree.vcs.paths`: absolute path, base filename, path
relative to the project root. -/
structure Entry where
  path : String
  filename : String
  relpath : String
deriving DecidableEq

/-- Outcome of `linecache.getlines(path)`: either an exception
(`UnicodeDecodeError` or `SyntaxError`) propagates, or a list of lines is
returned (the empty list when the file cannot be read). -/
inductive LinesResult where
  | raised : LinesResult
  | ok : List String → LinesResult
deriving DecidableEq

/-- Python `re`'s word character `\w`, restricted to the ASCII range of the
inputs considered here: letters, digits and the underscore. -/
def isWordChar (c : Char) : Bool :=
  ('a' ≤ c && c ≤ 'z') || ('A' ≤ c && c ≤ 'Z') || ('0' ≤ c && c ≤ '9') || c == '_'

/-- Whether position `i` of the line holds a word character (out-of-range
positions count as non-word, as they do for Python's `\b`). -/
def wordAt (l : List Char) (i : Nat) : Bool :=
  match l.get? i with
  | some c => isWordChar c
  | none => false

/-- Python `\b` at position `i`: exactly one of the two surrounding
positions holds a word character. -/
def wordBoundary (l : List Char) (i : Nat) : Bool :=
  (decide (0 < i) && wordAt l (i - 1)) != wordAt l i

/-- The `re.escape`d reference is a literal, so the middle of the pattern
matches exactly when `ref` occurs verbatim at index `i` of the line. -/
def litAt (ref l : List Char) (i : Nat) : Bool :=
  decide ((l.drop i).take ref.length = ref)

/-- The trailing group `(\b|\W)` of the compiled pattern succeeds at
position `k`: a zero-width word boundary, or one more non-word character. -/
def tailOk (l : List Char) (k : Nat) : Bool :=
  wordBoundary l k || (decide (k < l.length) && !wordAt l k)

/-- `regex.search(line)` for the compiled pattern
`(\b|\W){re.escape(ref)}(\b|\W)`: some start position `i` admits a match,
either through the zero-width `\b` branch of the leading group followed by
the literal at `i`, or through the `\W` branch consuming the (non-word)
character at `i` followed by the literal at `i + 1`; in both cases the
trailing group must succeed right after the literal. -/
def tokenSearch (ref l : List Char) : Bool :=
  (List.range (l.length + 1)).any (fun i =>
    (wordBoundary l i && litAt ref l i && tailOk l (i + ref.length)) ||
    (decide (i < l.length) && !wordAt l i && litAt ref l (i + 1) &&
      tailOk l (i + 1 + ref.length)))

/-- `for lineno, line in enumerate(lines, start=lineno): if regex.search(line): …`
— the first line (numbered from `lineno`) whose text matches the pattern. -/
def scanLines (ref : List Char) (lines : List String) (lineno : Nat) : Option Nat :=
  match lines with
  | [] => none
  | line :: rest =>
    if tokenSearch ref line.data then some lineno else scanLines ref rest (lineno + 1)

/-- Python `str.rfind` for a single character, as an index into the list
(`none` when the character does not occur). -/
def rfindIdx (l : List Char) (c : Char) : Option Nat :=
  match l.reverse.findIdx? (· = c) with
  | none => none
  | some j => some (l.length - 1 - j)

/-- The extension component of `os.path.splitext(p)` (posix flavour,
`genericpath._splitext` with `sep = '/'` and `extsep = '.'`): everything
from the last dot on, unless that dot lies at or before the first non-dot
character of the basename (leading dots never start an extension). -/
def splitextExt (p : String) : String :=
  let l := p.data
  match rfindIdx l '.' with
  | none => ""
  | some dotIndex =>
    let fnameIndex : Nat :=
      match rfindIdx l '/' with
      | none => 0
      | some s => s + 1
    if fnameIndex ≤ dotIndex then
      if (List.range' fnameIndex (dotIndex - fnameIndex)).any
          (fun k => l.getD k '.' != '.') then
        String.mk (l.drop dotIndex)
      else ""
    else ""

/-- `os.path.join(a, b)` (posix flavour, two components): `b` if it starts
with the separator, otherwise `a ++ b` when `a` is empty or already ends
with the separator, otherwise `a ++ "/" ++ b`. -/
def pathJoin (a b : String) : String :=
  if b.data.head? = some '/' then b
  else if a = "" ∨ a.data.getLast? = some '/' then a ++ b
  else a ++ "/" ++ b

/-- `ReferenceFinder.find_ref(ref, tree, item_path)`, with the external
collaborators made explicit.  Traverses `paths` in order; skips the item's
own file; returns `(relpath, None)` on filename equality; skips entries
whose `splitext` extension is in `settings.SKIP_EXTS`; otherwise fetches the
lines (a raised decode/syntax error, or an empty line list, skips the
entry) and returns `(relpath, lineno)` for the first matching line; raises
`DoorstopError` after an exhausted traversal. -/
def find_ref (ref : String) (paths : List Entry) (item_path : String)
    (skipExts : List String) (fs : String → LinesResult) :
    Except String (String × Option Nat) :=
  match paths with
  | [] => .error ("external reference not found: " ++ ref)
  | e :: rest =>
    if e.path = item_path then
      find_ref ref rest item_path skipExts fs
    else if e.filename = ref then
      .ok (e.relpath, none)
    else if skipExts.contains (splitextExt e.filename) then
      find_ref ref rest item_path skipExts fs
    else
      match fs e.path with
      | .raised => find_ref ref rest item_path skipExts fs
      | .ok lines =>
        if lines.isEmpty then
          find_ref ref rest item_path skipExts fs
        else
          match scanLines ref.data lines 1 with
          | some lineno => .ok (e.relpath, some lineno)
          | none => find_ref ref rest item_path skipExts fs

/-- The traversal loop of `find_file_reference`, with the precomputed
`ref_full_path = os.path.join(root, ref_path)`.  Note the source guards the
fetched lines with `if lines is None`, which never fires
(`linecache.getlines` returns a list), so an empty line list is simply
scanned and yields no match. -/
def findFileRefLoop (ref_path ref_full_path item_path : String)
    (keyword : Option String) (fs : String → LinesResult) :
    List Entry → Except String (String × Option Nat)
  | [] => .error ("external reference not found: " ++ ref_path)
  | e :: rest =>
    if e.path = item_path then
      findFileRefLoop ref_path ref_full_path item_path keyword fs rest
    else if e.path = ref_full_path then
      match keyword with
      | none => .ok (e.relpath, none)
      | some kw =>
        match fs e.path with
        | .raised => findFileRefLoop ref_path ref_full_path item_path keyword fs rest
        | .ok lines =>
          match scanLines kw.data lines 1 with
          | some lineno => .ok (e.relpath, some lineno)
          | none => findFileRefLoop ref_path ref_full_path item_path keyword fs rest
    else findFileRefLoop ref_path ref_full_path item_path keyword fs rest

/-- `ReferenceFinder.find_file_reference(ref_path, root, tree, item_path,
keyword=None)`, with the external collaborators made explicit. -/
def find_file_reference (ref_path root : String) (paths : List Entry)
    (item_path : String) (keyword : Option String)
    (fs : String → LinesResult) : Except String (String × Option Nat) :=
  findFileRefLoop ref_path (pathJoin root ref_path) item_path keyword fs paths

/-- The body of one iteration of `find_ref`'s loop: `some result` when the
entry produces a `return`, `none` when the iteration falls through to the
next entry. -/
def entryResult (ref item_path : String) (skipExts : List String)
    (fs : String → LinesResult) (e : Entry) : Option (String × Option Nat) :=
  if e.path = item_path then none
  else if e.filename = ref then some (e.relpath, none)
  else if skipExts.contains (splitextExt e.filename) then none
  else
    match fs e.path with
    | .raised => none
    | .ok lines =>
      if lines.isEmpty then none
      else
        match scanLines ref.data lines 1 with
        | some lineno => some (e.relpath, some lineno)
        | none => none

/-- The body of one iteration of `find_file_reference`'s loop: `some result`
when the entry produces a `return`, `none` when the iteration falls through
to the next entry. -/
def ffrEntryResult (ref_full_path item_path : String) (keyword : Option String)
    (fs : String → LinesResult) (e : Entry) : Option (String × Option Nat) :=
  if e.path = item_path then none
  else if e.path = ref_full_path then
    match keyword with
    | none => some (e.relpath, none)
    | some kw =>
      match fs e.path with
      | .raised => none
      | .ok lines =>
        match scanLines kw.data lines 1 with
        | some lineno => some (e.relpath, some lineno)
        | none => none
  else none

/-- An entry can produce a result in `find_ref`: it is not the item's own
file, and either its filename equals the reference, or it is not
skip-listed, its lines are fetched successfully and are non-empty, and some
line matches the whole-token pattern. -/
def entryMatches (ref item_path : String) (skipExts : List String)
    (fs : String → LinesResult) (e : Entry) : Bool :=
  decide (e.path ≠ item_path) &&
    (e.filename == ref ||
      (!skipExts.contains (splitextExt e.filename) &&
        match fs e.path with
        | .raised => false
        | .ok lines => !lines.isEmpty && (scanLines ref.data lines 1).isSome))

/-- An entry can produce a result in `find_file_reference`: it is not the
item's own file, its absolute path equals the resolved target, and — when a
keyword is supplied — its lines are fetched successfully and some line
matches the keyword's whole-token pattern. -/
def ffrMatches (ref_full_path item_path : String) (keyword : Option String)
    (fs : String → LinesResult) (e : Entry) : Bool :=
  decide (e.path ≠ item_path) && e.path == ref_full_path &&
    (match keyword with
     | none => true
     | some kw =>
       match fs e.path with
       | .raised => false
       | .ok lines => (scanLines kw.data lines 1).isSome)

/-! ### Loop-step characterizations -/

theorem find_ref_nil (ref item_path : String) (skipExts : List String)
    (fs : String → LinesResult) :
    find_ref ref [] item_path skipExts fs =
      .error ("external reference not found: " ++ ref) := rfl

theorem find_ref_cons (ref : String) (e : Entry) (rest : List Entry)
    (item_path : String) (skipExts : List String) (fs : String → LinesResult) :
    find_ref ref (e :: rest) item_path skipExts fs =
      match entryResult ref item_path skipExts fs e with
      | some r => .ok r
      | none => find_ref ref rest item_path skipExts fs := by
  simp only [find_ref, entryResult]
  by_cases hp : e.path = item_path
  · simp [hp]
  · by_cases hfn : e.filename = ref
    · simp [hp, hfn]
    · by_cases hsk : splitextExt e.filename ∈ skipExts
      · simp [hp, hfn, hsk]
      · cases hfs : fs e.path with
        | raised => simp [hp, hfn, hsk, hfs]
        | ok lines =>
          by_cases hemp : lines.isEmpty
          · simp [hp, hfn, hsk, hfs, hemp]
          · cases hscan : scanLines ref.data lines 1 with
            | none => simp [hp, hfn, hsk, hfs, hemp, hscan]
            | some n => simp [hp, hfn, hsk, hfs, hemp, hscan]

theorem ffrLoop_nil (ref_path ref_full_path item_path : String)
    (keyword : Option String) (fs : String → LinesResult) :
    findFileRefLoop ref_path ref_full_path item_path keyword fs [] =
      .error ("external reference not found: " ++ ref_path) := rfl

theorem ffrLoop_cons (ref_path ref_full_path item_path : String)
    (keyword : Option String) (fs : String → LinesResult) (e : Entry)
    (rest : List Entry) :
    findFileRefLoop ref_path ref_full_path item_path keyword fs (e :: rest) =
      match ffrEntryResult ref_full_path item_path keyword fs e with
      | some r => .ok r
      | none => findFileRefLoop ref_path ref_full_path item_path keyword fs rest := by
  simp only [findFileRefLoop, ffrEntryResult]
  by_cases hp : e.path = item_path
  · simp [hp]
  · by_cases hfull : e.path = ref_full_path
    · have hp2 : ¬(ref_full_path = item_path) := hfull ▸ hp
      cases keyword with
      | none => simp [hp, hfull, hp2]
      | some kw =>
        cases hfs : fs e.path with
        | raised => simp [hp, hfull, hp2, hfs]
        | ok lines =>
          cases hscan : scanLines kw.data lines 1 with
          | none => simp [hp, hfull, hp2, hfs, hscan]
          | some n => simp [hp, hfull, hp2, hfs, hscan]
    · simp [hp, hfull]

theorem entryResult_none_iff (ref item_path : String) (skipExts : List String)
    (fs : String → LinesResult) (e : Entry) :
    entryResult ref item_path skipExts fs e = none ↔
      entryMatches ref item_path skipExts fs e = false := by
  simp only [entryResult, entryMatches]
  by_cases hp : e.path = item_path
  · simp [hp]
  · by_cases hfn : e.filename = ref
    · simp [hp, hfn]
    · by_cases hsk : splitextExt e.filename ∈ skipExts
      · simp [hp, hfn, hsk]
      · cases hfs : fs e.path with
        | raised => simp [hp, hfn, hsk, hfs]
        | ok lines =>
          by_cases hemp : lines.isEmpty
          · simp [hp, hfn, hsk, hfs, hemp]
          · cases hscan : scanLines ref.data lines 1 with
            | none => simp [hp, hfn, hsk, hfs, hemp, hscan]
            | some n => simp [hp, hfn, hsk, hfs, hemp, hscan]

theorem ffrEntryResult_none_iff (ref_full_path item_path : String)
    (keyword : Option String) (fs : String → LinesResult) (e : Entry) :
    ffrEntryResult ref_full_path item_path keyword fs e = none ↔
      ffrMatches ref_full_path item_path keyword fs e = false := by
  simp only [ffrEntryResult, ffrMatches]
  by_cases hp : e.path = item_path
  · simp [hp]
  · by_cases hfull : e.path = ref_full_path
    · have hp2 : ¬(ref_full_path = item_path) := hfull ▸ hp
      cases keyword with
      | none => simp [hp, hfull, hp2]
      | some kw =>
        cases hfs : fs e.path with
        | raised => simp [hp, hfull, hp2, hfs]
        | ok lines =>
          cases hscan : scanLines kw.data lines 1 with
          | none => simp [hp, hfull, hp2, hfs, hscan]
          | some n => simp [hp, hfull, hp2, hfs, hscan]
    · simp [hp, hfull]

/-! ### Traversal lemmas -/

theorem find_ref_append_none (ref item_path : String) (skipExts : List String)
    (fs : String → LinesResult) (pre rest : List Entry)
    (h : ∀ e' ∈ pre, entryResult ref item_path skipExts fs e' = none) :
    find_ref ref (pre ++ rest) item_path skipExts fs =
      find_ref ref rest item_path skipExts fs := by
  induction pre with
  | nil => rfl
  | cons p pre ih =>
    rw [List.cons_append, find_ref_cons, h p (by simp)]
    exact ih (fun e' he' => h e' (by simp [he']))

theorem find_ref_remove_mid (ref item_path : String) (skipExts : List String)
    (fs : String → LinesResult) (e : Entry) (pre post : List Entry)
    (h : entryResult ref item_path skipExts fs e = none) :
    find_ref ref (pre ++ e :: post) item_path skipExts fs =
      find_ref ref (pre ++ post) item_path skipExts fs := by
  induction pre with
  | nil => rw [List.nil_append, List.nil_append, find_ref_cons, h]
  | cons p pre ih =>
    rw [List.cons_append, List.cons_append, find_ref_cons, find_ref_cons]
    cases entryResult ref item_path skipExts fs p with
    | some r => rfl
    | none => exact ih

theorem find_ref_error_iff (ref item_path : String) (skipExts : List String)
    (fs : String → LinesResult) (paths : List Entry) (m : String) :
    find_ref ref paths item_path skipExts fs = .error m ↔
      (m = "external reference not found: " ++ ref ∧
        ∀ e ∈ paths, entryMatches ref item_path skipExts fs e = false) := by
  induction paths with
  | nil =>
    rw [find_ref_nil]
    constructor
    · intro h
      exact ⟨(Except.error.injEq _ _).mp h.symm, by simp⟩
    · intro h
      rw [h.1]
  | cons e rest ih =>
    rw [find_ref_cons]
    cases he : entryResult ref item_path skipExts fs e with
    | some r =>
      constructor
      · intro h
        exact absurd h (by simp)
      · intro h
        have := (entryResult_none_iff ref item_path skipExts fs e).mpr
          (h.2 e (by simp))
        rw [this] at he
        exact absurd he (by simp)
    | none =>
      rw [ih]
      constructor
      · intro h
        refine ⟨h.1, fun e' he' => ?_⟩
        rcases List.mem_cons.mp he' with rfl | hmem
        · exact (entryResult_none_iff ref item_path skipExts fs e').mp he
        · exact h.2 e' hmem
      · intro h
        exact ⟨h.1, fun e' he' => h.2 e' (by simp [he'])⟩

theorem ffrLoop_append_none (ref_path ref_full_path item_path : String)
    (keyword : Option String) (fs : String → LinesResult) (pre rest : List Entry)
    (h : ∀ e' ∈ pre, ffrEntryResult ref_full_path item_path keyword fs e' = none) :
    findFileRefLoop ref_path ref_full_path item_path keyword fs (pre ++ rest) =
      findFileRefLoop ref_path ref_full_path item_path keyword fs rest := by
  induction pre with
  | nil => rfl
  | cons p pre ih =>
    rw [List.cons_append, ffrLoop_cons, h p (by simp)]
    exact ih (fun e' he' => h e' (by simp [he']))

theorem ffrLoop_error_of_none (ref_path ref_full_path item_path : String)
    (keyword : Option String) (fs : String → LinesResult) (paths : List Entry)
    (h : ∀ e ∈ paths, ffrEntryResult ref_full_path item_path keyword fs e = none) :
    findFileRefLoop ref_path ref_full_path item_path keyword fs paths =
      .error ("external reference not found: " ++ ref_path) := by
  have := ffrLoop_append_none ref_path ref_full_path item_path keyword fs paths [] h
  rw [List.append_nil] at this
  rw [this, ffrLoop_nil]

theorem ffrEntryResult_none_keyword (ref_full_path item_path : String)
    (fs fs' : String → LinesResult) (e : Entry) :
    ffrEntryResult ref_full_path item_path none fs e =
      ffrEntryResult ref_full_path item_path none fs' e := by
  simp only [ffrEntryResult]

theorem ffrLoop_fs_irrelevant_no_keyword (ref_path ref_full_path item_path : String)
    (fs fs' : String → LinesResult) (paths : List Entry) :
    findFileRefLoop ref_path ref_full_path item_path none fs paths =
      findFileRefLoop ref_path ref_full_path item_path none fs' paths := by
  induction paths with
  | nil => rfl
  | cons e rest ih =>
    rw [ffrLoop_cons, ffrLoop_cons,
      ffrEntryResult_none_keyword ref_full_path item_path fs fs' e]
    cases ffrEntryResult ref_full_path item_path none fs' e with
    | some r => rfl
    | none => exact ih

theorem ffrLoop_exists_no_keyword (ref_path ref_full_path item_path : String)
    (fs : String → LinesResult) (paths : List Entry)
    (h : ∃ e ∈ paths, e.path ≠ item_path ∧ e.path = ref_full_path) :
    ∃ e ∈ paths, e.path ≠ item_path ∧ e.path = ref_full_path ∧
      findFileRefLoop ref_path ref_full_path item_path none fs paths =
        .ok (e.relpath, none) := by
  induction paths with
  | nil => simp at h
  | cons p rest ih =>
    by_cases hp : p.path = item_path
    · have hres : ffrEntryResult ref_full_path item_path none fs p = none := by
        simp [ffrEntryResult, hp]
      obtain ⟨e, he, hne, hfull⟩ := h
      rcases List.mem_cons.mp he with rfl | hmem
      · exact absurd hp hne
      · obtain ⟨e', he', h1, h2, h3⟩ := ih ⟨e, hmem, hne, hfull⟩
        exact ⟨e', by simp [he'], h1, h2, by rw [ffrLoop_cons, hres]; exact h3⟩
    · by_cases hfull : p.path = ref_full_path
      · refine ⟨p, by simp, hp, hfull, ?_⟩
        rw [ffrLoop_cons]
        have hp2 : ¬(ref_full_path = item_path) := hfull ▸ hp
        have : ffrEntryResult ref_full_path item_path none fs p =
            some (p.relpath, none) := by
          simp [ffrEntryResult, hp, hfull, hp2]
        rw [this]
      · have hres : ffrEntryResult ref_full_path item_path none fs p = none := by
          simp [ffrEntryResult, hp, hfull]
        obtain ⟨e, he, hne, hfe⟩ := h
        rcases List.mem_cons.mp he with rfl | hmem
        · exact absurd hfe hfull
        · obtain ⟨e', he', h1, h2, h3⟩ := ih ⟨e, hmem, hne, hfe⟩
          exact ⟨e', by simp [he'], h1, h2, by rw [ffrLoop_cons, hres]; exact h3⟩

/-! ### Line-scan and per-entry step lemmas -/

theorem scanLines_eq_some (ref : List Char) (lines : List String) :
    ∀ (s k : Nat) (ln : String), lines.get? k = some ln →
      tokenSearch ref ln.data = true →
      (∀ j ln', j < k → lines.get? j = some ln' → tokenSearch ref ln'.data = false) →
      scanLines ref lines s = some (s + k) := by
  induction lines with
  | nil => intro s k ln hget _ _; simp at hget
  | cons line rest ih =>
    intro s k ln hget hm hearlier
    cases k with
    | zero =>
      have hln : line = ln := by simpa using hget
      subst hln
      simp [scanLines, hm]
    | succ k =>
      have h0 : tokenSearch ref line.data = false :=
        hearlier 0 line (Nat.succ_pos k) rfl
      have hrec := ih (s + 1) k ln hget hm
        (fun j ln' hj hg => hearlier (j + 1) ln' (by omega) hg)
      have harith : s + 1 + k = s + (k + 1) := by omega
      rw [harith] at hrec
      simp [scanLines, h0, hrec]

theorem scanLines_some_ne_nil {ref : List Char} {lines : List String} {s n : Nat}
    (h : scanLines ref lines s = some n) : lines ≠ [] := by
  intro hnil
  rw [hnil] at h
  simp [scanLines] at h

theorem entryResult_filename (ref item_path : String) (skipExts : List String)
    (fs : String → LinesResult) (e : Entry)
    (h1 : e.path ≠ item_path) (h2 : e.filename = ref) :
    entryResult ref item_path skipExts fs e = some (e.relpath, none) := by
  simp [entryResult, h1, h2]

theorem entryResult_content (ref item_path : String) (skipExts : List String)
    (fs : String → LinesResult) (e : Entry) (lines : List String) (n : Nat)
    (h1 : e.path ≠ item_path) (h2 : e.filename ≠ ref)
    (h3 : splitextExt e.filename ∉ skipExts) (h4 : fs e.path = .ok lines)
    (h5 : scanLines ref.data lines 1 = some n) :
    entryResult ref item_path skipExts fs e = some (e.relpath, some n) := by
  have hne : lines ≠ [] := scanLines_some_ne_nil h5
  simp [entryResult, h1, h2, h3, h4, h5, hne]

theorem entryResult_unreadable (ref item_path : String) (skipExts : List String)
    (fs : String → LinesResult) (e : Entry)
    (h1 : e.filename ≠ ref) (h2 : fs e.path = .raised ∨ fs e.path = .ok []) :
    entryResult ref item_path skipExts fs e = none := by
  by_cases hp : e.path = item_path
  · simp [entryResult, hp]
  · rcases h2 with h2 | h2 <;> simp [entryResult, hp, h1, h2]

theorem entryResult_skipped (ref item_path : String) (skipExts : List String)
    (fs : String → LinesResult) (e : Entry)
    (h1 : e.filename ≠ ref) (h2 : splitextExt e.filename ∈ skipExts) :
    entryResult ref item_path skipExts fs e = none := by
  by_cases hp : e.path = item_path <;> simp [entryResult, hp, h1, h2]

theorem ffrEntryResult_keyword_hit (ref_full_path item_path : String)
    (kw : String) (fs : String → LinesResult) (e : Entry) (lines : List String)
    (n : Nat) (h1 : e.path ≠ item_path) (h2 : e.path = ref_full_path)
    (h3 : fs e.path = .ok lines) (h4 : scanLines kw.data lines 1 = some n) :
    ffrEntryResult ref_full_path item_path (some kw) fs e =
      some (e.relpath, some n) := by
  have hp2 : ¬(ref_full_path = item_path) := h2 ▸ h1
  simp [ffrEntryResult, h1, h2, hp2, h2 ▸ h3, h4]

/-! ### Whole-token regular-expression lemmas -/

theorem litAt_le {ref l : List Char} {i : Nat} (hne : ref ≠ [])
    (h : litAt ref l i = true) : i + ref.length ≤ l.length := by
  have heq : (l.drop i).take ref.length = ref := of_decide_eq_true h
  have hlen := congrArg List.length heq
  simp only [List.length_take, List.length_drop] at hlen
  have hpos : 0 < ref.length := List.length_pos.mpr hne
  omega

theorem litAt_get {ref l : List Char} {i : Nat} (h : litAt ref l i = true)
    {m : Nat} (hm : m < ref.length) : l.get? (i + m) = ref.get? m := by
  have heq : (l.drop i).take ref.length = ref := of_decide_eq_true h
  conv_rhs => rw [← heq]
  rw [List.get?_take hm, List.get?_drop]

theorem wordAt_eq_occ {ref l : List Char} {i m : Nat}
    (h : litAt ref l i = true) (hm : m < ref.length) :
    wordAt l (i + m) = wordAt ref m := by
  unfold wordAt
  rw [litAt_get h hm]

theorem wordAt_of_all {ref : List Char} {m : Nat}
    (hw : ∀ c ∈ ref, isWordChar c = true) (hm : m < ref.length) :
    wordAt ref m = true := by
  unfold wordAt
  cases hr : ref.get? m with
  | none => exact absurd (List.get?_eq_none.mp hr) (by omega)
  | some c => exact hw c (List.get?_mem hr)

theorem wordAt_of_oob {l : List Char} {k : Nat} (h : l.length ≤ k) :
    wordAt l k = false := by
  unfold wordAt
  rw [List.get?_eq_none.mpr h]

theorem tokenSearch_false_of_inside (ref l : List Char) (hne : ref ≠ [])
    (hw : ∀ c ∈ ref, isWordChar c = true)
    (hocc : ∀ j, j < l.length → litAt ref l j = true →
      (0 < j ∧ wordAt l (j - 1) = true) ∨ wordAt l (j + ref.length) = true) :
    tokenSearch ref l = false := by
  have hpos : 0 < ref.length := List.length_pos.mpr hne
  by_contra hcon
  rw [Bool.not_eq_false] at hcon
  simp only [tokenSearch, List.any_eq_true, List.mem_range, Bool.or_eq_true,
    Bool.and_eq_true, Bool.not_eq_true', decide_eq_true_eq] at hcon
  obtain ⟨i, _, hbr⟩ := hcon
  rcases hbr with ⟨⟨hb, hlit⟩, ht⟩ | ⟨⟨⟨hi, hnw⟩, hlit⟩, ht⟩
  · have hlt : i < l.length := by have := litAt_le hne hlit; omega
    rcases hocc i hlt hlit with ⟨hi0, hwl⟩ | hwr
    · have hfi : wordAt l i = true := by
        have h0 := wordAt_eq_occ hlit hpos
        simp only [Nat.add_zero] at h0
        rw [h0]
        exact wordAt_of_all hw hpos
      simp [wordBoundary, hi0, hwl, hfi] at hb
    · have hlast : wordAt l (i + ref.length - 1) = true := by
        have h1 : ref.length - 1 < ref.length := by omega
        have h2 := wordAt_eq_occ hlit h1
        have harith : i + (ref.length - 1) = i + ref.length - 1 := by omega
        rw [harith] at h2
        rw [h2]
        exact wordAt_of_all hw h1
      have hk : 0 < i + ref.length := by omega
      simp [tailOk, wordBoundary, hk, hlast, hwr] at ht
  · have hlt2 : i + 1 + ref.length ≤ l.length := litAt_le hne hlit
    rcases hocc (i + 1) (by omega) hlit with ⟨_, hwl⟩ | hwr
    · have harith : i + 1 - 1 = i := by omega
      rw [harith] at hwl
      rw [hnw] at hwl
      exact Bool.noConfusion hwl
    · have hlast : wordAt l (i + ref.length) = true := by
        have h1 : ref.length - 1 < ref.length := by omega
        have h2 := wordAt_eq_occ hlit h1
        have harith : i + 1 + (ref.length - 1) = i + ref.length := by omega
        rw [harith] at h2
        rw [h2]
        exact wordAt_of_all hw h1
      have hk : 0 < i + 1 + ref.length := by omega
      simp [tailOk, wordBoundary, hk, hlast, hwr] at ht

theorem tokenSearch_true_of_isolated (ref l : List Char) (j : Nat)
    (hh : wordAt ref 0 = true) (hl : wordAt ref (ref.length - 1) = true)
    (hlit : litAt ref l j = true)
    (hleft : j = 0 ∨ wordAt l (j - 1) = false)
    (hright : j + ref.length = l.length ∨ wordAt l (j + ref.length) = false) :
    tokenSearch ref l = true := by
  have hne : ref ≠ [] := by
    intro h
    rw [h] at hh
    simp [wordAt] at hh
  have hpos : 0 < ref.length := List.length_pos.mpr hne
  have hle := litAt_le hne hlit
  have hfirst : wordAt l j = true := by
    have h0 := wordAt_eq_occ hlit hpos
    simp only [Nat.add_zero] at h0
    rw [h0]
    exact hh
  have hlast : wordAt l (j + ref.length - 1) = true := by
    have h1 : ref.length - 1 < ref.length := by omega
    have h2 := wordAt_eq_occ hlit h1
    have harith : j + (ref.length - 1) = j + ref.length - 1 := by omega
    rw [harith] at h2
    rw [h2]
    exact hl
  have hbound : wordBoundary l j = true := by
    rcases hleft with rfl | hwl
    · simp [wordBoundary, hfirst]
    · simp [wordBoundary, hwl, hfirst]
  have htail : tailOk l (j + ref.length) = true := by
    have hk : 0 < j + ref.length := by omega
    rcases hright with heq | hwr
    · have hoob : wordAt l (j + ref.length) = false :=
        wordAt_of_oob (le_of_eq heq.symm)
      simp [tailOk, wordBoundary, hk, hlast, hoob]
    · simp [tailOk, wordBoundary, hk, hlast, hwr]
  simp only [tokenSearch, List.any_eq_true, List.mem_range]
  exact ⟨j, by omega, by simp [hbound, hlit, htail]⟩

/-! ### Claim C1 -/

/-- C1 (amended): for every keyword that appears as a whole token first on
line N of a tracked, non-skipped, readable text file (the owning item's
file excluded), that is not equal to that file's filename, and that matches
no earlier-ordered tracked entry, `find_ref` returns that file's relative
path paired with N — the first match in traversal order, across files and
across lines. -/
theorem C1_first_content_match (ref : String) (paths pre post : List Entry)
    (e : Entry) (item_path : String) (skipExts : List String)
    (fs : String → LinesResult) (lines : List String) (N : Nat) (ln : String)
    (hsplit : paths = pre ++ e :: post)
    (hpre : ∀ e' ∈ pre, entryMatches ref item_path skipExts fs e' = false)
    (hitem : e.path ≠ item_path)
    (hfn : e.filename ≠ ref)
    (hskip : splitextExt e.filename ∉ skipExts)
    (hfs : fs e.path = .ok lines)
    (hN : 1 ≤ N)
    (hline : lines.get? (N - 1) = some ln)
    (hmatch : tokenSearch ref.data ln.data = true)
    (hearlier : ∀ j ln', j < N - 1 → lines.get? j = some ln' →
      tokenSearch ref.data ln'.data = false) :
    find_ref ref paths item_path skipExts fs = .ok (e.relpath, some N) := by
  subst hsplit
  have hscan : scanLines ref.data lines 1 = some N := by
    have h := scanLines_eq_some ref.data lines 1 (N - 1) ln hline hmatch hearlier
    have harith : 1 + (N - 1) = N := by omega
    rwa [harith] at h
  rw [find_ref_append_none ref item_path skipExts fs pre (e :: post)
    (fun e' he' => (entryResult_none_iff ref item_path skipExts fs e').mpr (hpre e' he'))]
  rw [find_ref_cons,
    entryResult_content ref item_path skipExts fs e lines N hitem hfn hskip hfs hscan]

/-- C1 counterexample: the keyword "foo" appears as a whole token on line 1
of the only tracked, non-skipped, readable file (which is not the item's
file), there is no earlier line and no earlier entry, yet `find_ref`
returns the filename match `("rf", none)` rather than `("rf", some 1)`,
because the keyword also equals that file's filename. -/
theorem C1_counterexample :
    tokenSearch "foo".data "foo".data = true ∧
    find_ref "foo" [⟨"f", "foo", "rf"⟩] "i" [] (fun _ => .ok ["foo"]) =
      .ok ("rf", none) ∧
    find_ref "foo" [⟨"f", "foo", "rf"⟩] "i" [] (fun _ => .ok ["foo"]) ≠
      .ok ("rf", some 1) := by
  decide

/-- C1 witness: a concrete instantiation of the amended claim. -/
theorem C1_witness :
    find_ref "kw" [⟨"a", "afile", "ra"⟩, ⟨"b", "bfile", "rb"⟩] "i" [".bin"]
      (fun p => if p = "b" then .ok ["none here", "a kw!"] else .raised) =
      .ok ("rb", some 2) :=
  C1_first_content_match "kw" _ [⟨"a", "afile", "ra"⟩] [] ⟨"b", "bfile", "rb"⟩
    "i" [".bin"] _ ["none here", "a kw!"] 2 "a kw!" rfl (by decide) (by decide)
    (by decide) (by decide) rfl (by decide) rfl (by decide)
    (by
      intro j ln' hj hg
      have hj0 : j = 0 := by omega
      subst hj0
      have hln : "none here" = ln' := by simpa using hg
      rw [← hln]
      decide)

/-! ### Claim C2 -/

/-- C2 (amended): the content match uses the compiled pattern
`(\b|\W)REFERENCE(\b|\W)` with the reference text escaped.  First part: a
line where the (word-character) reference occurs only as a strict substring
of a larger word never matches.  Second part: for a reference whose first
and last characters are word characters, a line where some occurrence of
the reference is flanked on both sides by non-word characters or the line
boundaries does match. -/
theorem C2_token_boundary_matching (ref line : List Char) :
    ((ref ≠ [] ∧ ∀ c ∈ ref, isWordChar c = true) →
      (∀ j, j < line.length → litAt ref line j = true →
        (0 < j ∧ wordAt line (j - 1) = true) ∨ wordAt line (j + ref.length) = true) →
      tokenSearch ref line = false) ∧
    (∀ j, wordAt ref 0 = true → wordAt ref (ref.length - 1) = true →
      litAt ref line j = true → (j = 0 ∨ wordAt line (j - 1) = false) →
      (j + ref.length = line.length ∨ wordAt line (j + ref.length) = false) →
      tokenSearch ref line = true) := by
  constructor
  · intro h1 h2
    exact tokenSearch_false_of_inside ref line h1.1 h1.2 h2
  · intro j hh hl hlit hleft hright
    exact tokenSearch_true_of_isolated ref line j hh hl hlit hleft hright

/-- C2 counterexample: the reference "," occurs as the whole line ",", so
it is surrounded by line boundaries on both sides, yet the compiled pattern
does not match — `\b` never holds next to a non-word character and `\W`
needs an extra character to consume. -/
theorem C2_counterexample :
    litAt [','] [','] 0 = true ∧ (0 : Nat) + [','].length = [','].length ∧
    tokenSearch [','] [','] = false := by
  decide

/-- C2 witness: "id" inside "identifier" does not match; "id" in
"an id, x" (flanked by a space and a comma) matches. -/
theorem C2_witness :
    tokenSearch "id".data "identifier".data = false ∧
    tokenSearch "id".data "an id, x".data = true :=
  ⟨(C2_token_boundary_matching "id".data "identifier".data).1 (by decide) (by decide),
   (C2_token_boundary_matching "id".data "an id, x".data).2 3 (by decide) (by decide)
     (by decide) (by decide) (by decide)⟩

/-! ### Claim C3 -/

/-- C3 (amended): for a reference equal to a tracked file's filename (the
item's own file excluded), where no earlier-ordered tracked entry matches
by filename or content, `find_ref` returns that file's relative path with
an absent line number.  The conclusion holds for every `fs` and for every
tail of the traversal, so the matching file's contents are never read and
the filename hit ends the call. -/
theorem C3_filename_precedence (ref : String) (paths pre post : List Entry)
    (e : Entry) (item_path : String) (skipExts : List String)
    (fs : String → LinesResult)
    (hsplit : paths = pre ++ e :: post)
    (hpre : ∀ e' ∈ pre, entryMatches ref item_path skipExts fs e' = false)
    (hitem : e.path ≠ item_path)
    (hfn : e.filename = ref) :
    find_ref ref paths item_path skipExts fs = .ok (e.relpath, none) := by
  subst hsplit
  rw [find_ref_append_none ref item_path skipExts fs pre (e :: post)
    (fun e' he' => (entryResult_none_iff ref item_path skipExts fs e').mpr (hpre e' he'))]
  rw [find_ref_cons, entryResult_filename ref item_path skipExts fs e hitem hfn]

/-- C3 counterexample: the reference "foo" equals the second tracked
entry's filename (and that entry is not the item's file), but an earlier
entry's content matches first, so `find_ref` returns `("ra", some 1)` and
not `("rb", none)` — filename equality does not take precedence over the
whole call. -/
theorem C3_counterexample :
    (⟨"b", "foo", "rb"⟩ : Entry) ∈
      [(⟨"a", "afile", "ra"⟩ : Entry), ⟨"b", "foo", "rb"⟩] ∧
    ("b" : String) ≠ "i" ∧
    find_ref "foo" [⟨"a", "afile", "ra"⟩, ⟨"b", "foo", "rb"⟩] "i" []
      (fun p => if p = "a" then .ok ["x foo x"] else .ok []) =
      .ok ("ra", some 1) ∧
    find_ref "foo" [⟨"a", "afile", "ra"⟩, ⟨"b", "foo", "rb"⟩] "i" []
      (fun p => if p = "a" then .ok ["x foo x"] else .ok []) ≠
      .ok ("rb", none) := by
  decide

/-- C3 witness: a concrete instantiation of the amended claim, with an
`fs` that raises everywhere — the filename match never reads contents. -/
theorem C3_witness :
    find_ref "foo" [⟨"a", "afile", "ra"⟩, ⟨"b", "foo", "rb"⟩] "i" [".bin"]
      (fun _ => .raised) = .ok ("rb", none) :=
  C3_filename_precedence "foo" _ [⟨"a", "afile", "ra"⟩] [] ⟨"b", "foo", "rb"⟩
    "i" [".bin"] _ rfl (by decide) (by decide) rfl

/-! ### Claim C4 -/

theorem find_ref_filter_item (ref item_path : String) (skipExts : List String)
    (fs : String → LinesResult) (paths : List Entry) :
    find_ref ref paths item_path skipExts fs =
      find_ref ref (paths.filter (fun e => e.path != item_path)) item_path
        skipExts fs := by
  induction paths with
  | nil => rfl
  | cons e rest ih =>
    rw [List.filter_cons]
    by_cases hp : e.path = item_path
    · have hpred : (e.path != item_path) = false := by simp [hp]
      rw [hpred, if_neg (by simp)]
      rw [find_ref_cons]
      have hres : entryResult ref item_path skipExts fs e = none := by
        simp [entryResult, hp]
      rw [hres]
      exact ih
    · have hpred : (e.path != item_path) = true := by simp [hp]
      rw [hpred, if_pos rfl]
      rw [find_ref_cons, find_ref_cons]
      cases entryResult ref item_path skipExts fs e with
      | some r => rfl
      | none => exact ih

theorem ffrLoop_filter_item (ref_path ref_full_path item_path : String)
    (keyword : Option String) (fs : String → LinesResult) (paths : List Entry) :
    findFileRefLoop ref_path ref_full_path item_path keyword fs paths =
      findFileRefLoop ref_path ref_full_path item_path keyword fs
        (paths.filter (fun e => e.path != item_path)) := by
  induction paths with
  | nil => rfl
  | cons e rest ih =>
    rw [List.filter_cons]
    by_cases hp : e.path = item_path
    · have hpred : (e.path != item_path) = false := by simp [hp]
      rw [hpred, if_neg (by simp)]
      rw [ffrLoop_cons]
      have hres : ffrEntryResult ref_full_path item_path keyword fs e = none := by
        simp [ffrEntryResult, hp]
      rw [hres]
      exact ih
    · have hpred : (e.path != item_path) = true := by simp [hp]
      rw [hpred, if_pos rfl]
      rw [ffrLoop_cons, ffrLoop_cons]
      cases ffrEntryResult ref_full_path item_path keyword fs e with
      | some r => rfl
      | none => exact ih

/-- C4: neither `find_ref` nor `find_file_reference` ever derives a result
from a tracked entry whose absolute path equals `item_path` — dropping all
such entries from the traversal leaves both results unchanged, even when
the item's entry has a matching filename, path or contents. -/
theorem C4_item_file_excluded (ref ref_path root item_path : String)
    (skipExts : List String) (keyword : Option String)
    (fs : String → LinesResult) (paths : List Entry) :
    find_ref ref paths item_path skipExts fs =
      find_ref ref (paths.filter (fun e => e.path != item_path)) item_path
        skipExts fs ∧
    find_file_reference ref_path root paths item_path keyword fs =
      find_file_reference ref_path root
        (paths.filter (fun e => e.path != item_path)) item_path keyword fs :=
  ⟨find_ref_filter_item ref item_path skipExts fs paths,
   ffrLoop_filter_item ref_path (pathJoin root ref_path) item_path keyword fs paths⟩

/-! ### Claim C5 -/

/-- C5: when the reference matches no tracked entry — by filename equality
or by a whole-token hit in a readable, non-skipped file, the item's own
file excluded — `find_ref` completes the traversal and raises a
`DoorstopError` whose message carries the reference string; and every
raised error arises exactly this way, with exactly this message. -/
theorem C5_exhausted_raises (ref item_path : String) (skipExts : List String)
    (fs : String → LinesResult) (paths : List Entry) :
    (∀ m, find_ref ref paths item_path skipExts fs = .error m →
      m = "external reference not found: " ++ ref ∧
      ∀ e ∈ paths, entryMatches ref item_path skipExts fs e = false) ∧
    ((∀ e ∈ paths, entryMatches ref item_path skipExts fs e = false) →
      find_ref ref paths item_path skipExts fs =
        .error ("external reference not found: " ++ ref)) := by
  constructor
  · intro m hm
    exact (find_ref_error_iff ref item_path skipExts fs paths m).mp hm
  · intro h
    exact (find_ref_error_iff ref item_path skipExts fs paths _).mpr ⟨rfl, h⟩

/-- C5 witness: a traversal with one non-matching entry raises the error
carrying the reference string. -/
theorem C5_witness :
    find_ref "kw" [⟨"a", "afile", "ra"⟩] "i" [] (fun _ => .ok ["nothing here"]) =
      .error "external reference not found: kw" :=
  (C5_exhausted_raises "kw" "i" [] (fun _ => .ok ["nothing here"])
    [⟨"a", "afile", "ra"⟩]).2 (by decide)

/-! ### Claim C6 -/

/-- C6: a per-file read failure (a raised decode/syntax error, or a line
fetch yielding no lines) never aborts `find_ref`: the failing entry is
skipped and the traversal continues — removing it changes nothing — and
when no other entry matches, the call ends in the not-found error rather
than propagating the read failure. -/
theorem C6_unreadable_file_skipped (ref item_path : String)
    (skipExts : List String) (fs : String → LinesResult) (e : Entry)
    (pre post : List Entry) (hfn : e.filename ≠ ref)
    (hfail : fs e.path = .raised ∨ fs e.path = .ok []) :
    find_ref ref (pre ++ e :: post) item_path skipExts fs =
      find_ref ref (pre ++ post) item_path skipExts fs ∧
    ((∀ e' ∈ pre ++ post, entryMatches ref item_path skipExts fs e' = false) →
      find_ref ref (pre ++ e :: post) item_path skipExts fs =
        .error ("external reference not found: " ++ ref)) := by
  have hnone : entryResult ref item_path skipExts fs e = none :=
    entryResult_unreadable ref item_path skipExts fs e hfn hfail
  have hrm := find_ref_remove_mid ref item_path skipExts fs e pre post hnone
  refine ⟨hrm, fun h => ?_⟩
  rw [hrm]
  exact (find_ref_error_iff ref item_path skipExts fs (pre ++ post) _).mpr ⟨rfl, h⟩

/-- C6 witness: a lone unreadable candidate leads to the not-found error,
not to a propagated read failure. -/
theorem C6_witness :
    find_ref "kw" [⟨"u", "ufile", "ru"⟩] "i" [] (fun _ => .raised) =
      .error "external reference not found: kw" :=
  (C6_unreadable_file_skipped "kw" "i" [] (fun _ => .raised)
    ⟨"u", "ufile", "ru"⟩ [] [] (by decide) (Or.inl rfl)).2 (by decide)

/-! ### Claim C7 -/

/-- C7: a tracked file whose `splitext` extension is in the skip set is
never opened for content search by `find_ref` — when its filename differs
from the reference, removing the entry leaves the result unchanged for
every `fs`, even one whose contents contain the reference as a whole
token; such an entry can only ever be returned via filename equality. -/
theorem C7_skip_extension (ref item_path : String) (skipExts : List String)
    (fs : String → LinesResult) (e : Entry) (pre post : List Entry)
    (hskip : splitextExt e.filename ∈ skipExts)
    (hfn : e.filename ≠ ref) :
    find_ref ref (pre ++ e :: post) item_path skipExts fs =
      find_ref ref (pre ++ post) item_path skipExts fs :=
  find_ref_remove_mid ref item_path skipExts fs e pre post
    (entryResult_skipped ref item_path skipExts fs e hfn hskip)

/-- C7 witness: a `.bin` file whose only line contains the keyword as a
whole token is not found as a content match. -/
theorem C7_witness :
    splitextExt "pic.bin" ∈ [".bin"] ∧
    tokenSearch "kw".data "kw here".data = true ∧
    find_ref "kw" [⟨"b", "pic.bin", "rb"⟩] "i" [".bin"]
      (fun _ => .ok ["kw here"]) = .error "external reference not found: kw" := by
  refine ⟨by decide, by decide, ?_⟩
  have h := C7_skip_extension "kw" "i" [".bin"] (fun _ => .ok ["kw here"])
    ⟨"b", "pic.bin", "rb"⟩ [] [] (by decide) (by decide)
  exact h.trans rfl

/-! ### Claim C8 -/

/-- C8: with no keyword, `find_file_reference` never consults file
contents (the result is identical for any two `fs`), and whenever some
tracked entry other than the item's file has absolute path equal to
`join(root, ref_path)`, it returns such an entry's relative path paired
with an absent line number. -/
theorem C8_path_confirmation_no_keyword (ref_path root item_path : String)
    (fs fs' : String → LinesResult) (paths : List Entry) :
    (find_file_reference ref_path root paths item_path none fs =
      find_file_reference ref_path root paths item_path none fs') ∧
    ((∃ e ∈ paths, e.path ≠ item_path ∧ e.path = pathJoin root ref_path) →
      ∃ e ∈ paths, e.path ≠ item_path ∧ e.path = pathJoin root ref_path ∧
        find_file_reference ref_path root paths item_path none fs =
          .ok (e.relpath, none)) :=
  ⟨ffrLoop_fs_irrelevant_no_keyword ref_path (pathJoin root ref_path) item_path
      fs fs' paths,
   fun h => ffrLoop_exists_no_keyword ref_path (pathJoin root ref_path)
      item_path fs paths h⟩

/-- C8 witness: the tracked entry at the joined path is returned with an
absent line number, under an `fs` that raises everywhere. -/
theorem C8_witness :
    find_file_reference "a" "/r" [⟨"/r/a", "a", "ra"⟩] "i" none
      (fun _ => .raised) = .ok ("ra", none) := by
  have h := (C8_path_confirmation_no_keyword "a" "/r" "i" (fun _ => .raised)
    (fun _ => .ok []) [⟨"/r/a", "a", "ra"⟩]).2
    ⟨⟨"/r/a", "a", "ra"⟩, by simp, by decide, by decide⟩
  obtain ⟨e, he, _, _, h3⟩ := h
  rw [List.mem_singleton] at he
  subst he
  exact h3

/-! ### Claim C9 -/

/-- C9: with a keyword, when no tracked entry satisfies all of: distinct
from the item's file, absolute path equal to `join(root, ref_path)`, lines
fetched without a raised error, and some line matching the keyword as a
whole token — `find_file_reference` finishes the traversal and raises the
not-found error carrying `ref_path`. -/
theorem C9_ffr_exhausted_raises (ref_path root item_path kw : String)
    (fs : String → LinesResult) (paths : List Entry)
    (h : ∀ e ∈ paths,
      ffrMatches (pathJoin root ref_path) item_path (some kw) fs e = false) :
    find_file_reference ref_path root paths item_path (some kw) fs =
      .error ("external reference not found: " ++ ref_path) :=
  ffrLoop_error_of_none ref_path (pathJoin root ref_path) item_path (some kw)
    fs paths
    (fun e he => (ffrEntryResult_none_iff (pathJoin root ref_path) item_path
      (some kw) fs e).mpr (h e he))

/-- C9 witness: the entry at the joined path is unreadable, so the call
raises the not-found error carrying the reference path. -/
theorem C9_witness :
    find_file_reference "a" "/r" [⟨"/r/a", "a", "ra"⟩] "i" (some "kw")
      (fun _ => .raised) = .error "external reference not found: a" :=
  C9_ffr_exhausted_raises "a" "/r" "i" "kw" (fun _ => .raised)
    [⟨"/r/a", "a", "ra"⟩] (by decide)

/-! ### Claim C10 -/

/-- C10: `find_file_reference` applies no skip-extension filtering — an
entry whose extension is in the configured skip set is still read and can
return a content match `(relpath, lineno)`, while `find_ref` with the same
entry and skip set never content-searches it and exhausts the traversal. -/
theorem C10_no_skip_filtering (ref_path root item_path kw : String)
    (skipExts : List String) (fs : String → LinesResult) (e : Entry)
    (pre post : List Entry) (lines : List String) (n : Nat)
    (hskip : splitextExt e.filename ∈ skipExts)
    (hpre : ∀ e' ∈ pre,
      ffrMatches (pathJoin root ref_path) item_path (some kw) fs e' = false)
    (hitem : e.path ≠ item_path)
    (hpath : e.path = pathJoin root ref_path)
    (hfs : fs e.path = .ok lines)
    (hscan : scanLines kw.data lines 1 = some n) :
    find_file_reference ref_path root (pre ++ e :: post) item_path (some kw) fs =
      .ok (e.relpath, some n) ∧
    (e.filename ≠ kw →
      find_ref kw [e] item_path skipExts fs =
        .error ("external reference not found: " ++ kw)) := by
  constructor
  · show findFileRefLoop ref_path (pathJoin root ref_path) item_path (some kw)
      fs (pre ++ e :: post) = _
    rw [ffrLoop_append_none ref_path (pathJoin root ref_path) item_path
      (some kw) fs pre (e :: post)
      (fun e' he' => (ffrEntryResult_none_iff (pathJoin root ref_path)
        item_path (some kw) fs e').mpr (hpre e' he'))]
    rw [ffrLoop_cons, ffrEntryResult_keyword_hit (pathJoin root ref_path)
      item_path kw fs e lines n hitem hpath hfs hscan]
  · intro hfn
    have hnone : entryResult kw item_path skipExts fs e = none :=
      entryResult_skipped kw item_path skipExts fs e hfn hskip
    rw [find_ref_cons, hnone, find_ref_nil]

/-- C10 witness: a `.bin` entry at the joined path yields a content match
for `find_file_reference`, while `find_ref` with `.bin` in the skip set
never finds the same keyword in the same file. -/
theorem C10_witness :
    find_file_reference "a.bin" "/r" [⟨"/r/a.bin", "a.bin", "ra"⟩] "i"
      (some "kw") (fun _ => .ok ["kw here"]) = .ok ("ra", some 1) ∧
    find_ref "kw" [⟨"/r/a.bin", "a.bin", "ra"⟩] "i" [".bin"]
      (fun _ => .ok ["kw here"]) =
      .error "external reference not found: kw" := by
  have h := C10_no_skip_filtering "a.bin" "/r" "i" "kw" [".bin"]
    (fun _ => .ok ["kw here"]) ⟨"/r/a.bin", "a.bin", "ra"⟩ [] [] ["kw here"] 1
    (by decide) (by decide) (by decide) (by decide) rfl (by decide)
  exact ⟨h.1, h.2 (by decide)⟩

end Doorstop
